import Mathlib

set_option allowUnsafeReducibility true
attribute [semireducible] Rat.mul Rat.inv Rat.add Rat.sub

/-!
Verification development for the arkeo sentinel authentication and metering
pipeline (sentinel auth middleware: proof parsing, validation, rate limiting,
paid tier accounting).  Go source functions are embedded shallowly: machine
integers become Nat or Int with explicit wrap where overflow matters, the
mutable stores become explicit state passing, and fallible calls return
Option or ParseResult values.
-/

namespace Sentinel

/-! ## Go standard library models -/

/-- Helper for strings.SplitN with a one character separator: walks the
character list, cutting at the separator while more than one part may still
be produced, accumulating the current part in acc. -/
def splitAux (sep : Char) : List Char → Nat → List Char → List (List Char)
  | [], _, acc => [acc]
  | c :: cs, n, acc =>
    if c = sep ∧ 1 < n then acc :: splitAux sep cs (n - 1) []
    else splitAux sep cs n (acc ++ [c])

/-- Model of strings.SplitN (s, sep, n) for n at least 1: at most n parts,
the last part keeps any remaining separators. -/
def goSplitN (s : String) (sep : Char) (n : Nat) : List String :=
  (splitAux sep s.toList n []).map (fun cs => String.mk cs)

/-- Helper for strings.Split with a one character separator (no limit). -/
def splitAllAux (sep : Char) : List Char → List Char → List (List Char)
  | [], acc => [acc]
  | c :: cs, acc =>
    if c = sep then acc :: splitAllAux sep cs []
    else splitAllAux sep cs (acc ++ [c])

/-- Model of strings.Split (s, sep) for a one character separator. -/
def goSplitAll (s : String) (sep : Char) : List String :=
  (splitAllAux sep s.toList []).map (fun cs => String.mk cs)

/-- Decimal digit value of a character, when it is one. -/
def digitVal (c : Char) : Option Nat :=
  if '0' ≤ c ∧ c ≤ '9' then some (c.toNat - '0'.toNat) else none

/-- Accumulating decimal parse: fails on the first non digit character. -/
def parseDigitsAux : List Char → Nat → Option Nat
  | [], acc => some acc
  | c :: cs, acc =>
    match digitVal c with
    | some d => parseDigitsAux cs (10 * acc + d)
    | none => none

/-- Parse a non empty all digit string to a natural number. -/
def parseDigits (cs : List Char) : Option Nat :=
  match cs with
  | [] => none
  | _ => parseDigitsAux cs 0

/-- Model of strconv.ParseUint (s, 10, 64): decimal digits only, no sign,
value must fit in 64 bits; any failure collapses to none since the Go
callers only test err against nil. -/
def goParseUint64 (s : String) : Option Nat :=
  match parseDigits s.toList with
  | none => none
  | some v => if v < 2 ^ 64 then some v else none

/-- The digit and range part of strconv.ParseInt (s, 10, 64): parse the
digit run and check the signed 64 bit bound for the requested sign. -/
def goParseInt64Core (cs : List Char) (neg : Bool) : Option Int :=
  match parseDigits cs with
  | none => none
  | some v =>
    if neg then (if v ≤ 2 ^ 63 then some (-(v : Int)) else none)
    else (if v < 2 ^ 63 then some (v : Int) else none)

/-- strconv.ParseInt on the character list: optional single sign prefix,
then digits. -/
def goParseInt64List : List Char → Option Int
  | [] => none
  | c :: cs =>
    if c = '-' then goParseInt64Core cs true
    else if c = '+' then goParseInt64Core cs false
    else goParseInt64Core (c :: cs) false

def goParseInt64 (s : String) : Option Int :=
  goParseInt64List s.toList

/-- Hex digit value of a character (both cases), when it is one. -/
def hexVal (c : Char) : Option Nat :=
  if '0' ≤ c ∧ c ≤ '9' then some (c.toNat - '0'.toNat)
  else if 'a' ≤ c ∧ c ≤ 'f' then some (c.toNat - 'a'.toNat + 10)
  else if 'A' ≤ c ∧ c ≤ 'F' then some (c.toNat - 'A'.toNat + 10)
  else none

/-- Model of hex.DecodeString: even length, hex digits, big endian pairs. -/
def goHexDecodeAux : List Char → Option (List Nat)
  | [] => some []
  | [_] => none
  | c1 :: c2 :: cs =>
    match hexVal c1, hexVal c2, goHexDecodeAux cs with
    | some h, some l, some rest => some ((16 * h + l) :: rest)
    | _, _, _ => none

/-- Model of hex.DecodeString on a Lean string. -/
def goHexDecode (s : String) : Option (List Nat) :=
  goHexDecodeAux s.toList

/-- Lower case hex digit character for a value below 16. -/
def hexChr (d : Nat) : Char :=
  if d < 10 then Char.ofNat ('0'.toNat + d) else Char.ofNat ('a'.toNat + d - 10)

/-- Model of hex.EncodeToString: two lower case hex digits per byte. -/
def goHexEncode (bs : List Nat) : String :=
  String.mk (bs.foldr (fun b acc => hexChr (b / 16) :: hexChr (b % 16) :: acc) [])

/-- Decimal digit character for a value below 10. -/
def digitChr (d : Nat) : Char := Char.ofNat ('0'.toNat + d)

/-- Little endian decimal digits of a natural number, with explicit fuel so
the recursion is structural. -/
def natDigitsAux : Nat → Nat → List Nat
  | 0, _ => []
  | fuel + 1, n => if n = 0 then [] else n % 10 :: natDigitsAux fuel (n / 10)

/-- Little endian decimal digits of a natural number (empty for zero). -/
def natDigits (n : Nat) : List Nat := natDigitsAux n n

/-- Model of fmt.Sprintf with a %d verb on an unsigned integer. -/
def natToDec (n : Nat) : String :=
  if n = 0 then "0" else String.mk (((natDigits n).map digitChr).reverse)

/-- Model of fmt.Sprintf with a %d verb on a signed integer. -/
def intToDec (i : Int) : String :=
  if i < 0 then "-" ++ natToDec i.natAbs else natToDec i.toNat

/-- Two complement wrap of an integer into the signed 64 bit range, the
result of overflowing int64 arithmetic in Go. -/
def wrap64 (x : Int) : Int := (x + 2 ^ 63) % 2 ^ 64 - 2 ^ 63

/-- Go int64 multiplication: the mathematical product wrapped into int64. -/
def goMulInt64 (a b : Int) : Int := wrap64 (a * b)

/-! ## Proof structures and codecs (sentinel auth.go) -/

/-- Direct client proof: ContractAuth of the source. -/
structure ContractAuth where
  ContractId : Nat
  Timestamp : Int
  Signature : List Nat
  deriving DecidableEq, Repr

/-- Delegated spender proof: ArkAuth of the source.  Spender is the bech32
public key string; its zero value is the empty string. -/
structure ArkAuth where
  ContractId : Nat
  Spender : String
  Nonce : Int
  Signature : List Nat
  deriving DecidableEq, Repr

/-- Outcome of a Go parsing function: success, an error return, or a
runtime crash (index out of range). -/
inductive ParseResult (α : Type) where
  | ok (a : α)
  | err (field : String)
  | crash
  deriving DecidableEq, Repr

/-- GenerateMessageToSign of the source: the canonical signable string
rendered as contractId colon nonce, both in decimal. -/
def GenerateMessageToSign (contractId : Nat) (nonce : Int) : String :=
  natToDec contractId ++ ":" ++ intToDec nonce

/-- GenerateArkAuthString of the source: message colon lower case hex
signature. -/
def GenerateArkAuthString (contractId : Nat) (nonce : Int)
    (signature : List Nat) : String :=
  GenerateMessageToSign contractId nonce ++ ":" ++ goHexEncode signature

/-- ArkAuth.String of the source: serializes contract id, nonce and
signature; the Spender field is not serialized. -/
def ArkAuth.String (aa : ArkAuth) : String :=
  GenerateArkAuthString aa.ContractId aa.Nonce aa.Signature

/-- parseContractAuth of the source.  It splits on colons into at most three
parts.  The source guards the second field with the length check for the
first field (len parts greater than 0 instead of greater than 1), so it
indexes parts at position 1 unconditionally; when the input holds no colon
that index is out of range and Go panics, modelled by the crash result. -/
def parseContractAuth (raw : String) : ParseResult ContractAuth :=
  let parts := goSplitN raw ':' 3
  match goParseUint64 (parts.getD 0 "") with
  | none => .err "ContractId"
  | some cid =>
    match parts.get? 1 with
    | none => .crash
    | some s1 =>
      match goParseInt64 s1 with
      | none => .err "Timestamp"
      | some ts =>
        if 2 < parts.length then
          match goHexDecode (parts.getD 2 "") with
          | none => .err "Signature"
          | some sig => .ok ⟨cid, ts, sig⟩
        else .ok ⟨cid, ts, []⟩

/-- parseArkAuth of the source: same shape, with the correct length guard on
each field; the Spender field is never populated by parsing. -/
def parseArkAuth (raw : String) : ParseResult ArkAuth :=
  let parts := goSplitN raw ':' 3
  match goParseUint64 (parts.getD 0 "") with
  | none => .err "ContractId"
  | some cid =>
    if 1 < parts.length then
      match goParseInt64 (parts.getD 1 "") with
      | none => .err "Nonce"
      | some nonce =>
        if 2 < parts.length then
          match goHexDecode (parts.getD 2 "") with
          | none => .err "Signature"
          | some sig => .ok ⟨cid, "", nonce, sig⟩
        else .ok ⟨cid, "", nonce, []⟩
    else .ok ⟨cid, "", 0, []⟩

/-! ## Rate limiter registry (golang.org/x/time/rate and isRateLimited) -/

/-- State of one golang.org/x/time/rate limiter.  Token counts are modelled
over the rationals (the Go implementation uses float64); time is a rational
number of seconds, with the Go zero time at 0.  A fresh limiter holds last
at the zero time and zero tokens, so its bucket content at the first call
is min burst (elapsed times limit). -/
structure Limiter where
  limit : ℚ
  burst : Int
  tokens : ℚ
  last : ℚ
  deriving DecidableEq, Repr

/-- rate.NewLimiter: a limiter with the given refill rate and burst, zero
tokens and the zero time as its last update. -/
def newLimiter (r : ℚ) (b : Int) : Limiter := ⟨r, b, 0, 0⟩

/-- Limiter.Allow of golang.org/x/time/rate at time now: advance the bucket
by the elapsed time capped at the burst, then grant when one token can be
taken without waiting; the stored state is only updated on a grant. -/
def Limiter.allow (l : Limiter) (now : ℚ) : Bool × Limiter :=
  let last := min l.last now
  let tokens := min (l.burst : ℚ) (l.tokens + (now - last) * l.limit)
  if 1 ≤ l.burst ∧ 1 ≤ tokens then
    (true, { l with last := now, tokens := tokens - 1 })
  else (false, l)

/-- Association list lookup, the model of Go map indexing. -/
def lookupA {α : Type} : List (String × α) → String → Option α
  | [], _ => none
  | (k, v) :: rest, key => if k = key then some v else lookupA rest key

/-- Association list update or insert, the model of Go map assignment. -/
def setA {α : Type} : List (String × α) → String → α → List (String × α)
  | [], key, v => [(key, v)]
  | (k, w) :: rest, key, v =>
    if k = key then (k, v) :: rest else (k, w) :: setA rest key v

/-- The global visitors map of the source: rate limiters keyed by string. -/
abbrev VisitorMap := List (String × Limiter)

/-- The composite limiter key built by isRateLimited with fmt.Sprintf of the
contract id and the key argument, joined by a dash. -/
def compositeKey (contractId : Nat) (key : String) : String :=
  natToDec contractId ++ "-" ++ key

/-- isRateLimited of the source: look up or lazily create the limiter for
the composite key, with refill rate.Every of one minute (one token per 60
seconds, independent of the quota) and burst limitTokens, then return the
negation of Allow together with the updated map. -/
def isRateLimited (vs : VisitorMap) (now : ℚ) (contractId : Nat)
    (key : String) (limitTokens : Int) : Bool × VisitorMap :=
  let k := compositeKey contractId key
  let lim :=
    match lookupA vs k with
    | some l => l
    | none => newLimiter (1 / 60) limitTokens
  let res := Limiter.allow lim now
  (!res.1, setA vs k res.2)

/-! ## Contracts, claims and the stores -/

/-- Contract types used by the pipeline. -/
inductive ContractType where
  | SUBSCRIPTION
  | PAY_AS_YOU_GO
  deriving DecidableEq, Repr

/-- Contract authorization modes. -/
inductive ContractAuthorization where
  | OPEN
  | RESTRICTED
  deriving DecidableEq, Repr

/-- The cached ledger contract, with the fields the pipeline reads.  Typ
stands for the Type field of the source.  Rate holds the int64 value of
Rate.Amount (values outside int64 make the Go extraction panic and are
assumed absent).  Deposit is the cosmos Int deposit, none when nil. -/
structure Contract where
  Id : Nat
  Authorization : ContractAuthorization
  Typ : ContractType
  Rate : Int
  Deposit : Option Int
  Nonce : Int
  QueriesPerMinute : Int
  Service : Nat
  deriving DecidableEq, Repr

/-- The zero value contract returned by a failed store read. -/
def zeroContract : Contract := ⟨0, .OPEN, .SUBSCRIPTION, 0, none, 0, 0, 0⟩

/-- The sentinel claim record.  Signature holds the hex encoding. -/
structure Claim where
  ContractId : Nat
  Spender : String
  Nonce : Int
  Signature : String
  Claimed : Bool
  deriving DecidableEq, Repr

/-- Modelled from the spec: NewClaim, the sentinel claim constructor (the
sentinel claim source file is not under src); per section 3 of the spec a
claim carries the contract id, spender, nonce, hex signature and a claimed
flag that starts false. -/
def NewClaim (contractId : Nat) (spender : String) (nonce : Int)
    (sig : String) : Claim :=
  ⟨contractId, spender, nonce, sig, false⟩

/-- The mutable stores the pipeline touches: the contract cache, the claim
cache and the limiter map.  Cache entries map a string key to an optional
record; a key bound to none models an entry whose read fails, so that the
store error branches of the source stay reachable.  Get and put semantics
of the caches follow the collaborator interfaces in section 6 of the spec
(get by id, put keyed by the record id), since the store implementations
are not under src. -/
structure Stores where
  mem : List (String × Option Contract)
  claims : List (String × Option Claim)
  visitors : VisitorMap
  deriving DecidableEq, Repr

/-- MemStore.Get: none models a lookup error (missing or failed entry). -/
def memGet (st : Stores) (key : String) : Option Contract :=
  (lookupA st.mem key).bind id

/-- ClaimStore.Has. -/
def claimHas (st : Stores) (key : String) : Bool :=
  (lookupA st.claims key).isSome

/-- ClaimStore.Get: none models a read error. -/
def claimGet (st : Stores) (key : String) : Option Claim :=
  (lookupA st.claims key).bind id

/-- CORS configuration lists, as used by enableCORS. -/
structure CORs where
  AllowOrigins : List String
  AllowMethods : List String
  AllowHeaders : List String
  deriving DecidableEq, Repr

/-- Contract configuration record, with the fields the source reads. -/
structure ContractConfigRec where
  CORs : CORs
  WhitelistIPAddresses : List String
  PerUserRateLimit : Int
  deriving DecidableEq, Repr

/-- The zero value configuration used when the configuration read fails. -/
def zeroConfig : ContractConfigRec := ⟨⟨[], [], []⟩, [], 0⟩

/-- The proxy environment: immutable configuration and the external
collaborators the pipeline calls, abstracted as functions.  providerValid
models aa.Validate of the source returning nil (that method only composes
the external GetMyAddress and ledger message ValidateBasic calls, both
outside src).  isExpired models Contract.IsExpired of the ledger types
package.  newService models common.NewService.  decodePub and verify in
ContractAuth.Validate are passed separately. -/
structure Proxy where
  height : Int
  isExpired : Contract → Int → Bool
  providerValid : ArkAuth → Bool
  claimSetFails : Claim → Bool
  configGet : Nat → Option ContractConfigRec
  newService : String → Option Nat
  freeTierRateLimit : Int

/-! ## Direct client proof validation (ContractAuth.Validate) -/

/-- ContractAuth.Validate of the source, parametrized by the cosmos crypto
primitives: decode models cosmos.GetPubKeyFromBech32 on the account public
key type, verify models VerifySignature of the decoded key over the message
bytes.  The checks run in source order: zero contract id, timestamp not
past the freshness bound, bech32 decoding, signature verification. -/
def ContractAuth.Validate {K : Type} (decode : String → Option K)
    (verify : K → String → List Nat → Bool) (auth : ContractAuth)
    (lastTimestamp : Int) (client : String) : Except String Unit :=
  if auth.ContractId = 0 then .error "contract id cannot be zero"
  else if auth.Timestamp ≤ lastTimestamp then
    .error ("timestamp must be larger than " ++ intToDec lastTimestamp)
  else
    match decode client with
    | none => .error "bech32 decode failed"
    | some pk =>
      if verify pk (GenerateMessageToSign auth.ContractId auth.Timestamp)
          auth.Signature then .ok ()
      else .error "invalid signature"

/-! ## The paid tier (paidTier) -/

/-- Result of paidTier: the HTTP code, whether the error return was nil,
and the stores after the call. -/
structure PaidResult where
  code : Nat
  success : Bool
  st : Stores
  deriving DecidableEq, Repr

/-- Tail of paidTier after the claim gate: the pay as you go deposit check
(the nonce and rate multiply in int64 and wrap on overflow), the per
contract rate limit (note the limiter key joins the contract id from the
store with the decimal proof contract id, not with the remote address),
and the commit of the claim and the contract nonce. -/
def paidTierRest (p : Proxy) (st : Stores) (now : ℚ) (aa : ArkAuth)
    (contract : Contract) (claim : Claim) (sig : String) : PaidResult :=
  let depositBad :=
    match contract.Deposit with
    | none => true
    | some d => d < goMulInt64 aa.Nonce contract.Rate
  if (contract.Typ == ContractType.PAY_AS_YOU_GO) && depositBad then
    ⟨402, false, st⟩
  else
    let key := natToDec aa.ContractId
    let rl := isRateLimited st.visitors now contract.Id key
      contract.QueriesPerMinute
    let st1 : Stores := { st with visitors := rl.2 }
    if rl.1 then ⟨429, false, st1⟩
    else
      let claim1 : Claim :=
        { claim with Nonce := aa.Nonce, Signature := sig, Claimed := false }
      if p.claimSetFails claim1 then ⟨500, false, st1⟩
      else
        let st2 : Stores :=
          { st1 with
            claims := setA st1.claims (natToDec claim1.ContractId) (some claim1) }
        let contract1 : Contract := { contract with Nonce := aa.Nonce }
        let st3 : Stores :=
          { st2 with
            mem := setA st2.mem (natToDec contract1.Id) (some contract1) }
        ⟨200, true, st3⟩

/-- paidTier of the source: resolve the contract by the decimal proof
contract id (store failure is 500), reject expired contracts with 402,
reject a proof whose nonce does not exceed the recorded claim nonce with
400 (a claim store read failure under an existing key is 500), then run the
deposit, rate limit and commit tail.  The remoteAddr parameter is received
but never used by the source. -/
def paidTier (p : Proxy) (st : Stores) (now : ℚ) (aa : ArkAuth)
    (remoteAddr : String) : PaidResult :=
  let key := natToDec aa.ContractId
  match memGet st key with
  | none => ⟨500, false, st⟩
  | some contract =>
    if p.isExpired contract p.height then ⟨402, false, st⟩
    else
      let sig := goHexEncode aa.Signature
      if claimHas st key then
        match claimGet st key with
        | none => ⟨500, false, st⟩
        | some cl =>
          if aa.Nonce ≤ cl.Nonce then ⟨400, false, st⟩
          else paidTierRest p st now aa contract cl sig
      else
        paidTierRest p st now aa contract
          (NewClaim aa.ContractId aa.Spender aa.Nonce sig) sig

/-! ## The request pipeline (auth, freeTier, getRemoteAddr) -/

/-- The pieces of the inbound request the middleware reads.  Header values
use the Go convention that the empty string means the header is absent. -/
structure Request where
  arkauthParam : Option String
  xRealIP : String
  xForwardedFor : String
  remoteAddr : String
  path : String
  deriving DecidableEq, Repr

/-- getRemoteAddr of the source: the real ip header, else the forwarded for
header, else the transport peer address. -/
def getRemoteAddr (r : Request) : String :=
  if r.xRealIP ≠ "" then r.xRealIP
  else if r.xForwardedFor ≠ "" then r.xForwardedFor
  else r.remoteAddr

/-- Response headers as a list of name and value pairs. -/
abbrev Headers := List (String × String)

/-- Header.Set: overwrite or append. -/
def setHeader (hs : Headers) (name value : String) : Headers :=
  setA hs name value

/-- Header lookup. -/
def getHeader (hs : Headers) (name : String) : Option String :=
  lookupA hs name

/-- enableCORS of the source: set each CORS header only when its configured
list is non empty, joining the values with a comma and a space. -/
def corsHeaders (hs : Headers) (c : CORs) : Headers :=
  let h1 := if c.AllowOrigins.length > 0 then
    setHeader hs "Access-Control-Allow-Origin" (String.intercalate ", " c.AllowOrigins)
    else hs
  let h2 := if c.AllowMethods.length > 0 then
    setHeader h1 "Access-Control-Allow-Methods" (String.intercalate ", " c.AllowMethods)
    else h1
  if c.AllowHeaders.length > 0 then
    setHeader h2 "Access-Control-Allow-Headers" (String.intercalate ", " c.AllowHeaders)
  else h2

/-- How the middleware disposes of the request: forwarded to the backend,
terminated with an HTTP error, or a Go runtime panic. -/
inductive Disposition where
  | served
  | httpError (code : Nat)
  | crashed
  deriving DecidableEq, Repr

/-- Result of the auth middleware: the disposition, the response headers
written so far, and the stores after the call. -/
structure AuthResult where
  disp : Disposition
  headers : Headers
  st : Stores
  deriving DecidableEq, Repr

/-- Case insensitive string comparison, the model of strings.EqualFold
(exact for ASCII input, which ip address strings are). -/
def eqFold (a b : String) : Bool := a.toLower = b.toLower

/-- freeTier of the source combined with its caller: set the tier header to
free, apply the free tier limit keyed by contract id zero and the remote
address, then serve or reject with 429. -/
def freeTail (p : Proxy) (st : Stores) (now : ℚ) (remoteAddr : String)
    (hs : Headers) : AuthResult :=
  let hs1 := setHeader hs "tier" "free"
  let rl := isRateLimited st.visitors now 0 remoteAddr p.freeTierRateLimit
  let st1 : Stores := { st with visitors := rl.2 }
  if rl.1 then ⟨.httpError 429, hs1, st1⟩ else ⟨.served, hs1, st1⟩

/-- The eligibility test and paid branch of auth: when the store read
succeeded and the contract is OPEN or the delegated proof validates, mark
the tier paid, check the first path segment against the contract service
(an unparseable service name is 401; a parseable mismatch formats a nil
error in the source and panics; a path without a second segment indexes out
of range), then run paidTier and fall back to the free tail unless it
succeeded. -/
def authTail (p : Proxy) (st : Stores) (now : ℚ) (r : Request)
    (aa : ArkAuth) (memOk : Bool) (contract : Contract) (hs : Headers) :
    AuthResult :=
  let remoteAddr := getRemoteAddr r
  if memOk ∧ (contract.Authorization = .OPEN ∨ p.providerValid aa) then
    let hs1 := setHeader hs "tier" "paid"
    let parts := goSplitAll r.path '/'
    match parts.get? 1 with
    | none => ⟨.crashed, hs1, st⟩
    | some serviceName =>
      match p.newService serviceName with
      | none => ⟨.httpError 401, hs1, st⟩
      | some ser =>
        if ser ≠ contract.Service then ⟨.crashed, hs1, st⟩
        else
          let pr := paidTier p st now aa remoteAddr
          if pr.success then ⟨.served, hs1, pr.st⟩
          else freeTail p pr.st now remoteAddr hs1
  else freeTail p st now remoteAddr hs

/-- The contract policy block and tail of auth, entered after proof parsing
with the parsed (or zero valued) proof: resolve the contract (a failed read
logs and leaves the zero contract), and when a contract with positive id
was resolved fetch its configuration (failure leaves the zero value), set
the CORS headers, enforce the ip allowlist with 403, and apply the per user
rate limit with 429, before the eligibility test. -/
def authCore (p : Proxy) (st : Stores) (now : ℚ) (r : Request)
    (aa : ArkAuth) : AuthResult :=
  let remoteAddr := getRemoteAddr r
  let memRes := memGet st (natToDec aa.ContractId)
  let contract := memRes.getD zeroContract
  let memOk := memRes.isSome
  if 0 < contract.Id then
    let conf := (p.configGet contract.Id).getD zeroConfig
    let hs := corsHeaders [] conf.CORs
    if conf.WhitelistIPAddresses.length > 0 ∧
        ¬ (conf.WhitelistIPAddresses.any (fun ip => eqFold remoteAddr ip)) then
      ⟨.httpError 403, hs, st⟩
    else if 0 < conf.PerUserRateLimit then
      let rl := isRateLimited st.visitors now contract.Id remoteAddr
        conf.PerUserRateLimit
      let st1 : Stores := { st with visitors := rl.2 }
      if rl.1 then ⟨.httpError 429, hs, st1⟩
      else authTail p st1 now r aa memOk contract hs
    else authTail p st now r aa memOk contract hs
  else authTail p st now r aa memOk contract []

/-- The zero valued delegated proof used when no proof parameter is
present. -/
def zeroArkAuth : ArkAuth := ⟨0, "", 0, []⟩

/-- auth of the source: parse the proof parameter when present (a parse
failure is a terminal 400), then run the policy block and the tier
decision. -/
def auth (p : Proxy) (st : Stores) (now : ℚ) (r : Request) : AuthResult :=
  match r.arkauthParam with
  | some raw =>
    match parseArkAuth raw with
    | .ok aa => authCore p st now r aa
    | .err _ => ⟨.httpError 400, [], st⟩
    | .crash => ⟨.crashed, [], st⟩
  | none => authCore p st now r zeroArkAuth

/-! ## Concrete fixtures used by witnesses and counterexamples -/

/-- A pay as you go contract fixture. -/
def exContract : Contract := ⟨7, .RESTRICTED, .PAY_AS_YOU_GO, 10, some 100, 0, 10, 1⟩

/-- A proxy environment fixture: nothing expires, delegated proofs
validate, claim writes succeed, no configuration, one known service. -/
def exProxy : Proxy :=
  ⟨0, fun _ _ => false, fun _ => true, fun _ => false, fun _ => none,
    fun s => if s = "svc" then some 1 else none, 10⟩

/-- The same proxy fixture with delegated proof validation failing. -/
def exInvalidProxy : Proxy := { exProxy with providerValid := fun _ => false }

/-- Stores holding only the contract fixture. -/
def exStores : Stores := ⟨[("7", some exContract)], [], []⟩

/-- Stores holding the contract fixture and a recorded claim of nonce 5. -/
def exClaimStores : Stores :=
  ⟨[("7", some exContract)], [("7", some ⟨7, "s", 5, "aa", false⟩)], []⟩

/-- A subscription contract fixture whose cached nonce is 5. -/
def exNonceContract : Contract := ⟨7, .RESTRICTED, .SUBSCRIPTION, 0, none, 5, 10, 1⟩

/-- Stores holding the nonce 5 contract and no claim. -/
def exNonceStores : Stores := ⟨[("7", some exNonceContract)], [], []⟩

/-- A pay as you go contract whose rate times a nonce of 2 pow 32 overflows
int64 to zero, with a zero deposit. -/
def exOverflowContract : Contract :=
  ⟨7, .RESTRICTED, .PAY_AS_YOU_GO, 2 ^ 32, some 0, 0, 10, 1⟩

/-- Stores holding the overflow contract. -/
def exOverflowStores : Stores := ⟨[("7", some exOverflowContract)], [], []⟩

/-- A request fixture carrying a syntactically valid proof for contract 7. -/
def exRequest : Request := ⟨some "7:1:", "", "", "9.9.9.9", "/svc/x"⟩

/-! ## Helper lemmas -/

theorem lookupA_setA_eq {α : Type} (l : List (String × α)) (k : String)
    (v : α) : lookupA (setA l k v) k = some v := by
  induction l with
  | nil => simp [setA, lookupA]
  | cons head tail ih =>
    obtain ⟨k0, v0⟩ := head
    by_cases h : k0 = k <;> simp [setA, lookupA, h, ih]

theorem lookupA_setA_ne {α : Type} (l : List (String × α)) (k k2 : String)
    (v : α) (h : k2 ≠ k) : lookupA (setA l k v) k2 = lookupA l k2 := by
  induction l with
  | nil =>
    simp only [setA, lookupA]
    rw [if_neg (fun hh => h hh.symm)]
  | cons head tail ih =>
    obtain ⟨k0, v0⟩ := head
    by_cases h0 : k0 = k
    · subst h0
      simp only [setA, if_pos rfl, lookupA]
      rw [if_neg (fun hh => h hh.symm), if_neg (fun hh => h hh.symm)]
    · simp only [setA, if_neg h0, lookupA]
      by_cases h2 : k0 = k2 <;> simp [h2, ih]

/-- Limiter.allow never changes the configured rate or burst. -/
theorem Limiter.allow_preserves (l : Limiter) (now : ℚ) :
    (Limiter.allow l now).2.limit = l.limit ∧
    (Limiter.allow l now).2.burst = l.burst := by
  unfold Limiter.allow
  simp only []
  split <;> simp

/-- A fresh limiter with rate one per 60 seconds grants its first call at
time now exactly when the burst admits a token and a full 60 seconds have
elapsed since the zero time. -/
theorem allow_fresh (q : Int) (now : ℚ) (hnow : 0 ≤ now) :
    (Limiter.allow (newLimiter (1 / 60) q) now).1 = true ↔
      1 ≤ q ∧ 60 ≤ now := by
  have h60 : (0 : ℚ) < 60 := by norm_num
  unfold Limiter.allow newLimiter
  simp only [min_eq_left hnow, sub_zero, zero_add, mul_one_div]
  split_ifs with h
  · simp only [true_iff]
    obtain ⟨h1, h2⟩ := h
    exact ⟨h1, (one_le_div h60).mp (le_min_iff.mp h2).2⟩
  · simp only [false_iff]
    rintro ⟨h1, h2⟩
    exact h ⟨h1, le_min_iff.mpr
      ⟨by exact_mod_cast h1, (one_le_div h60).mpr h2⟩⟩

/-- C7: parseContractAuth is not total: on the input "5", which has no
colon separator, the source indexes the split parts at position 1 under a
guard that only checks the length needed for position 0, so the Go code
panics with an index out of range instead of returning a parse error.  The
sibling parseArkAuth uses the correct guard, so the wrong guard is a slip
and the claim describes the intended behavior. -/
theorem C7_parse_no_colon_crash :
    parseContractAuth "5" = ParseResult.crash ∧
    parseContractAuth "abc" = ParseResult.err "ContractId" ∧
    parseContractAuth "7:8:zz" = ParseResult.err "Signature" := by
  decide

/-- C3 counterexample: isRateLimited creates its bucket with refill rate
one token per 60 seconds (limit 1 over 60 per second), not one token per
60 over quota seconds: with quota 2 the created limit is 1 over 60, not 2
over 60, and at time 60 the fresh bucket serves only one of two immediate
calls, where a 2 per minute refill would have accumulated two tokens. -/
theorem C3_refill_rate_cex :
    (lookupA ((isRateLimited [] 0 1 "v" 2).2) "1-v").map Limiter.limit =
      some (1 / 60) ∧
    (1 / 60 : ℚ) ≠ 2 / 60 ∧
    (isRateLimited [] 60 1 "v" 2).1 = false ∧
    (isRateLimited ((isRateLimited [] 60 1 "v" 2).2) 60 1 "v" 2).1 = true := by
  decide

/-- C3 amended: for every key and quota q, the registry lazily creates a
token bucket whose refill rate is one token per 60 seconds independent of
q, with burst q; the call is rejected exactly when the bucket cannot grant
a token, which for a fresh bucket (empty at the zero time) means the burst
admits no token or fewer than 60 seconds have elapsed. -/
theorem C3_fresh_bucket (vs : VisitorMap) (now : ℚ) (cid : Nat)
    (key : String) (q : Int)
    (hfresh : lookupA vs (compositeKey cid key) = none) (hnow : 0 ≤ now) :
    (∃ l, lookupA (isRateLimited vs now cid key q).2 (compositeKey cid key) =
        some l ∧ l.limit = 1 / 60 ∧ l.burst = q) ∧
    ((isRateLimited vs now cid key q).1 = false ↔ 1 ≤ q ∧ 60 ≤ now) := by
  have hall := Limiter.allow_preserves (newLimiter (1 / 60) q) now
  have hgrant := allow_fresh q now hnow
  unfold isRateLimited
  simp only [hfresh]
  constructor
  · refine ⟨(Limiter.allow (newLimiter (1 / 60) q) now).2,
      lookupA_setA_eq _ _ _, ?_, ?_⟩
    · rw [hall.1]; rfl
    · rw [hall.2]; rfl
  · rw [← hgrant]
    cases hb : (Limiter.allow (newLimiter (1 / 60) q) now).1 <;> simp [hb]

/-- C10: once a limiter exists for a key, isRateLimited reuses it: the
quota argument has no effect on the result, and the stored entry keeps its
original burst and refill rate. -/
theorem C10_existing_key_quota_ignored (vs : VisitorMap) (now : ℚ)
    (cid : Nat) (key : String) (q q2 : Int) (l : Limiter)
    (h : lookupA vs (compositeKey cid key) = some l) :
    isRateLimited vs now cid key q = isRateLimited vs now cid key q2 ∧
    ∀ l2, lookupA (isRateLimited vs now cid key q).2 (compositeKey cid key) =
        some l2 → l2.burst = l.burst ∧ l2.limit = l.limit := by
  constructor
  · unfold isRateLimited
    simp only [h]
  · intro l2 h2
    unfold isRateLimited at h2
    simp only [h] at h2
    rw [lookupA_setA_eq] at h2
    have hall := Limiter.allow_preserves l now
    cases h2
    exact ⟨hall.2, hall.1⟩

/-- Witness for C10 at a concrete map holding the key. -/
theorem C10_existing_key_quota_ignored_witness :
    lookupA [("1-v", newLimiter (1 / 60) 2)] (compositeKey 1 "v") =
      some (newLimiter (1 / 60) 2) ∧
    (isRateLimited [("1-v", newLimiter (1 / 60) 2)] 60 1 "v" 5 =
      isRateLimited [("1-v", newLimiter (1 / 60) 2)] 60 1 "v" 99 ∧
     ∀ l2, lookupA (isRateLimited [("1-v", newLimiter (1 / 60) 2)] 60 1 "v" 5).2
        (compositeKey 1 "v") = some l2 →
        l2.burst = (newLimiter (1 / 60) 2).burst ∧
        l2.limit = (newLimiter (1 / 60) 2).limit) :=
  ⟨by decide,
   C10_existing_key_quota_ignored [("1-v", newLimiter (1 / 60) 2)] 60 1 "v"
     5 99 (newLimiter (1 / 60) 2) (by decide)⟩

/-- Witness for C3 at a fresh key and time 60 with quota 2. -/
theorem C3_fresh_bucket_witness :
    (lookupA ([] : VisitorMap) (compositeKey 1 "v") = none ∧
     (0 : ℚ) ≤ 60) ∧
    ((∃ l, lookupA (isRateLimited [] 60 1 "v" 2).2 (compositeKey 1 "v") =
        some l ∧ l.limit = 1 / 60 ∧ l.burst = 2) ∧
     ((isRateLimited [] 60 1 "v" 2).1 = false ↔ 1 ≤ (2 : Int) ∧
        (60 : ℚ) ≤ 60)) :=
  ⟨⟨by decide, by norm_num⟩, C3_fresh_bucket [] 60 1 "v" 2 (by decide)
    (by norm_num)⟩

/-- On every rejecting branch, the tail of paidTier leaves the claim cache
and the contract cache untouched. -/
theorem paidTierRest_reject_stores (p : Proxy) (st : Stores) (now : ℚ)
    (aa : ArkAuth) (c : Contract) (cl : Claim) (sig : String)
    (h : (paidTierRest p st now aa c cl sig).success = false) :
    (paidTierRest p st now aa c cl sig).st.claims = st.claims ∧
    (paidTierRest p st now aa c cl sig).st.mem = st.mem := by
  simp only [paidTierRest] at h ⊢
  split_ifs at h ⊢ <;> simp_all

/-- C9: paidTier is atomic on rejection: whenever its error is non nil,
neither the claim cache nor the contract cache has been written; only the
limiter registry may have gained or advanced an entry. -/
theorem C9_reject_preserves_stores (p : Proxy) (st : Stores) (now : ℚ)
    (aa : ArkAuth) (addr : String)
    (h : (paidTier p st now aa addr).success = false) :
    (paidTier p st now aa addr).st.claims = st.claims ∧
    (paidTier p st now aa addr).st.mem = st.mem := by
  unfold paidTier at h ⊢
  cases hm : memGet st (natToDec aa.ContractId) with
  | none => simp [hm]
  | some c =>
    simp only [hm] at h ⊢
    by_cases hexp : p.isExpired c p.height = true
    · simp [hexp]
    · simp only [hexp, if_false] at h ⊢
      by_cases hch : claimHas st (natToDec aa.ContractId) = true
      · simp only [hch, if_true] at h ⊢
        cases hcg : claimGet st (natToDec aa.ContractId) with
        | none => simp [hcg]
        | some cl =>
          simp only [hcg] at h ⊢
          by_cases hn : aa.Nonce ≤ cl.Nonce
          · simp [hn]
          · simp only [hn, if_false] at h ⊢
            exact paidTierRest_reject_stores p st now aa c cl _ h
      · simp only [hch, if_false] at h ⊢
        exact paidTierRest_reject_stores p st now aa c _ _ h

/-- Witness for C9 at a concrete replayed request. -/
theorem C9_reject_preserves_stores_witness :
    (paidTier exProxy exClaimStores 60 ⟨7, "s", 5, []⟩ "x").success = false ∧
    ((paidTier exProxy exClaimStores 60 ⟨7, "s", 5, []⟩ "x").st.claims =
      exClaimStores.claims ∧
     (paidTier exProxy exClaimStores 60 ⟨7, "s", 5, []⟩ "x").st.mem =
      exClaimStores.mem) :=
  ⟨by decide, C9_reject_preserves_stores exProxy exClaimStores 60
    ⟨7, "s", 5, []⟩ "x" (by decide)⟩

/-- C1 counterexample: the contract's own cached nonce is never compared
with the proof's nonce.  With a cached contract whose nonce is 5 and no
recorded claim, a proof with nonce 3 is accepted, although 3 is not
strictly greater than the contract's current nonce. -/
theorem C1_contract_nonce_cex :
    (memGet exNonceStores "7").map Contract.Nonce = some 5 ∧
    (paidTier exProxy exNonceStores 60 ⟨7, "s", 3, []⟩ "x").success = true ∧
    ¬ ((5 : Int) < 3) := by
  decide

/-- C1 amended: an accepted paid request must present a proof nonce
strictly greater than the last recorded claim's nonce (the contract's own
cached nonce is not consulted); when a claim with nonce N is recorded for
the contract and the contract resolves unexpired, paidTier rejects any
proof with nonce at most N with HTTP 400 and leaves all state unchanged,
regardless of signature validity (paidTier never inspects the
signature). -/
theorem C1_replay_rejected (p : Proxy) (st : Stores) (now : ℚ)
    (aa : ArkAuth) (addr : String) (c : Contract) (cl : Claim)
    (hmem : memGet st (natToDec aa.ContractId) = some c)
    (hexp : p.isExpired c p.height = false)
    (hcl : lookupA st.claims (natToDec aa.ContractId) = some (some cl))
    (hn : aa.Nonce ≤ cl.Nonce) :
    paidTier p st now aa addr = ⟨400, false, st⟩ := by
  have hch : claimHas st (natToDec aa.ContractId) = true := by
    unfold claimHas
    rw [hcl]
    rfl
  have hcg : claimGet st (natToDec aa.ContractId) = some cl := by
    unfold claimGet
    rw [hcl]
    rfl
  unfold paidTier
  simp [hmem, hexp, hch, hcg, hn]

/-- Witness for C1 at a recorded claim of nonce 5 and a replayed nonce 5. -/
theorem C1_replay_rejected_witness :
    (memGet exClaimStores (natToDec (7 : Nat)) = some exContract ∧
     exProxy.isExpired exContract exProxy.height = false ∧
     lookupA exClaimStores.claims (natToDec (7 : Nat)) =
       some (some ⟨7, "s", 5, "aa", false⟩) ∧
     (5 : Int) ≤ (5 : Int)) ∧
    paidTier exProxy exClaimStores 60 ⟨7, "s", 5, []⟩ "x" =
      ⟨400, false, exClaimStores⟩ :=
  ⟨⟨by decide, by decide, by decide, by decide⟩,
   C1_replay_rejected exProxy exClaimStores 60 ⟨7, "s", 5, []⟩ "x"
     exContract ⟨7, "s", 5, "aa", false⟩ (by decide) (by decide) (by decide)
     (by decide)⟩

/-- C2 counterexample: the deposit check multiplies the int64 nonce by the
int64 rate with wrapping Go arithmetic.  With rate 2 pow 32 and nonce
2 pow 32 the product wraps to zero, so a zero deposit passes the check and
the request is accepted although the deposit is far below the mathematical
product. -/
theorem C2_overflow_accepts_cex :
    exOverflowContract.Typ = .PAY_AS_YOU_GO ∧
    exOverflowContract.Deposit = some 0 ∧
    exOverflowContract.Rate = 2 ^ 32 ∧
    (paidTier exProxy exOverflowStores 60 ⟨7, "s", 2 ^ 32, []⟩ "x").success =
      true ∧
    (0 : Int) < 2 ^ 32 * 2 ^ 32 := by
  decide

/-- C2 amended: for a resolved, unexpired PAY_AS_YOU_GO contract with no
prior recorded claim, a passing rate limit and a succeeding claim write,
paidTier accepts the request iff the deposit is set and at least the
two complement int64 product of the proof's nonce and the rate (which
equals nonce times rate whenever the product fits in int64, so the
boundary deposit equal to the product is accepted); when the deposit is
unset or below that product the result is HTTP 402 with no state
change. -/
theorem C2_deposit_gate (p : Proxy) (st : Stores) (now : ℚ) (aa : ArkAuth)
    (addr : String) (c : Contract)
    (hmem : memGet st (natToDec aa.ContractId) = some c)
    (hexp : p.isExpired c p.height = false)
    (hnoclaim : lookupA st.claims (natToDec aa.ContractId) = none)
    (htyp : c.Typ = ContractType.PAY_AS_YOU_GO)
    (hrl : (isRateLimited st.visitors now c.Id (natToDec aa.ContractId)
      c.QueriesPerMinute).1 = false)
    (hset : ∀ cl, p.claimSetFails cl = false) :
    ((paidTier p st now aa addr).success = true ↔
      ∃ d, c.Deposit = some d ∧ goMulInt64 aa.Nonce c.Rate ≤ d) ∧
    ((∀ d, c.Deposit = some d → d < goMulInt64 aa.Nonce c.Rate) →
      paidTier p st now aa addr = ⟨402, false, st⟩) := by
  have hch : claimHas st (natToDec aa.ContractId) = false := by
    unfold claimHas
    rw [hnoclaim]
    rfl
  rcases hdep : c.Deposit with _ | d
  · have hres : paidTier p st now aa addr = ⟨402, false, st⟩ := by
      unfold paidTier
      simp [hmem, hexp, hch, paidTierRest, htyp, hdep]
    rw [hres]
    constructor
    · simp [hdep]
    · intro _
      rfl
  · by_cases hlt : d < goMulInt64 aa.Nonce c.Rate
    · have hres : paidTier p st now aa addr = ⟨402, false, st⟩ := by
        unfold paidTier
        simp [hmem, hexp, hch, paidTierRest, htyp, hdep, hlt]
      rw [hres]
      constructor
      · constructor
        · intro hfalse
          simp at hfalse
        · rintro ⟨d2, hd2, hle⟩
          cases hd2
          exact absurd hle (not_le.mpr hlt)
      · intro _
        rfl
    · have hres : (paidTier p st now aa addr).success = true := by
        unfold paidTier
        simp [hmem, hexp, hch, paidTierRest, htyp, hdep, hlt, hrl, hset]
      constructor
      · simp only [hres, true_iff]
        exact ⟨d, rfl, not_lt.mp hlt⟩
      · intro hall
        exact absurd (hall d rfl) hlt

/-- Witness for C2 at deposit 100, rate 10, nonce 3. -/
theorem C2_deposit_gate_witness :
    (memGet exStores (natToDec (7 : Nat)) = some exContract ∧
     exProxy.isExpired exContract exProxy.height = false ∧
     lookupA exStores.claims (natToDec (7 : Nat)) = none ∧
     exContract.Typ = ContractType.PAY_AS_YOU_GO ∧
     (isRateLimited exStores.visitors 60 exContract.Id (natToDec (7 : Nat))
       exContract.QueriesPerMinute).1 = false) ∧
    (((paidTier exProxy exStores 60 ⟨7, "s", 3, []⟩ "x").success = true ↔
      ∃ d, exContract.Deposit = some d ∧
        goMulInt64 (3 : Int) exContract.Rate ≤ d) ∧
     ((∀ d, exContract.Deposit = some d →
        d < goMulInt64 (3 : Int) exContract.Rate) →
      paidTier exProxy exStores 60 ⟨7, "s", 3, []⟩ "x" =
        ⟨402, false, exStores⟩)) :=
  ⟨⟨by decide, by decide, by decide, by decide, by decide⟩,
   C2_deposit_gate exProxy exStores 60 ⟨7, "s", 3, []⟩ "x" exContract
     (by decide) (by decide) (by decide) (by decide) (by decide)
     (fun _ => rfl)⟩

/-- Every branch of the paid tier tail can only touch the limiter entry
whose key joins the stored contract id with the decimal proof contract
id. -/
theorem paidTierRest_new_key (p : Proxy) (st : Stores) (now : ℚ)
    (aa : ArkAuth) (c : Contract) (cl : Claim) (sig : String) (k : String)
    (hk : lookupA st.visitors k = none)
    (hne : k ≠ compositeKey c.Id (natToDec aa.ContractId)) :
    lookupA (paidTierRest p st now aa c cl sig).st.visitors k = none := by
  have hpres : ∀ l2 : Limiter,
      lookupA (setA st.visitors (compositeKey c.Id (natToDec aa.ContractId))
        l2) k = none := fun l2 => by
    rw [lookupA_setA_ne _ _ _ _ hne]
    exact hk
  simp only [paidTierRest, isRateLimited]
  split_ifs <;> simp_all

/-- C4: the contract's queriesPerMinute limit is not metered per visitor:
paidTier ignores its remoteAddr argument entirely, so its result is
identical for any two callers, and the only limiter entry it can create is
the one keyed by the stored contract id joined with the decimal proof
contract id, never one keyed by the caller's visitor key. -/
theorem C4_remoteAddr_ignored (p : Proxy) (st : Stores) (now : ℚ)
    (aa : ArkAuth) (a a2 : String) (k : String) (c : Contract)
    (hmem : memGet st (natToDec aa.ContractId) = some c)
    (hk : lookupA st.visitors k = none)
    (hne : k ≠ compositeKey c.Id (natToDec aa.ContractId)) :
    paidTier p st now aa a = paidTier p st now aa a2 ∧
    lookupA (paidTier p st now aa a).st.visitors k = none := by
  refine ⟨rfl, ?_⟩
  unfold paidTier
  simp only [hmem]
  by_cases hexp : p.isExpired c p.height = true
  · simp [hexp, hk]
  · simp only [hexp, if_false, Bool.false_eq_true]
    by_cases hch : claimHas st (natToDec aa.ContractId) = true
    · simp only [hch, if_true]
      cases hcg : claimGet st (natToDec aa.ContractId) with
      | none => simp [hk]
      | some cl =>
        by_cases hn : aa.Nonce ≤ cl.Nonce
        · simp [hn, hk]
        · simp only [hn, if_false]
          exact paidTierRest_new_key p st now aa c cl _ k hk hne
    · simp only [hch, if_false, Bool.false_eq_true]
      exact paidTierRest_new_key p st now aa c _ _ k hk hne

/-- C4 counterexample: after a paid request from visitor 9.9.9.9 for
contract 7, the only limiter entry is keyed 7-7 (contract id twice), not by
the visitor, and the whole result is unchanged when the visitor is
5.5.5.5 instead. -/
theorem C4_visitor_key_cex :
    (paidTier exProxy exStores 60 ⟨7, "s", 1, []⟩ "9.9.9.9").st.visitors.map
      Prod.fst = ["7-7"] ∧
    "7-7" ≠ compositeKey 7 "9.9.9.9" ∧
    paidTier exProxy exStores 60 ⟨7, "s", 1, []⟩ "9.9.9.9" =
      paidTier exProxy exStores 60 ⟨7, "s", 1, []⟩ "5.5.5.5" := by
  decide

/-- Witness for C4 at a fresh visitor keyed entry. -/
theorem C4_remoteAddr_ignored_witness :
    (memGet exStores (natToDec (7 : Nat)) = some exContract ∧
     lookupA exStores.visitors (compositeKey 7 "9.9.9.9") = none ∧
     compositeKey 7 "9.9.9.9" ≠
       compositeKey exContract.Id (natToDec (7 : Nat))) ∧
    (paidTier exProxy exStores 60 ⟨7, "s", 1, []⟩ "9.9.9.9" =
      paidTier exProxy exStores 60 ⟨7, "s", 1, []⟩ "5.5.5.5" ∧
     lookupA (paidTier exProxy exStores 60 ⟨7, "s", 1, []⟩
       "9.9.9.9").st.visitors (compositeKey 7 "9.9.9.9") = none) :=
  ⟨⟨by decide, by decide, by decide⟩,
   C4_remoteAddr_ignored exProxy exStores 60 ⟨7, "s", 1, []⟩ "9.9.9.9"
     "5.5.5.5" (compositeKey 7 "9.9.9.9") exContract (by decide) (by decide)
     (by decide)⟩

/-- C8: direct client proof validation accepts exactly when the contract id
is non zero, the timestamp strictly exceeds the freshness bound, the
client's bech32 account public key decodes, and the signature verifies
over the canonical contract id colon timestamp string; every other case is
an error value. -/
theorem C8_validate_iff {K : Type} (decode : String → Option K)
    (verify : K → String → List Nat → Bool) (auth : ContractAuth)
    (lastTimestamp : Int) (client : String) :
    ContractAuth.Validate decode verify auth lastTimestamp client =
        .ok () ↔
      (auth.ContractId ≠ 0 ∧ lastTimestamp < auth.Timestamp ∧
       ∃ pk, decode client = some pk ∧
         verify pk (GenerateMessageToSign auth.ContractId auth.Timestamp)
           auth.Signature = true) := by
  unfold ContractAuth.Validate
  split_ifs with h1 h2
  · simp [h1]
  · simp [h1, not_lt.mpr h2]
  · cases hd : decode client with
    | none => simp [hd]
    | some pk =>
      by_cases hv : verify pk
          (GenerateMessageToSign auth.ContractId auth.Timestamp)
          auth.Signature = true
      · simp [hd, hv, h1, not_le.mp h2]
      · simp [hd, hv, h1]

/-! ## Decimal, integer and hex round trip lemmas -/

theorem str_toList_append (a b : String) :
    (a ++ b).toList = a.toList ++ b.toList := rfl

theorem str_mk_toList (s : String) : String.mk s.toList = s := rfl

theorem str_toList_mk (l : List Char) : (String.mk l).toList = l := rfl

theorem natDigitsAux_eq (fuel n : Nat) (h : n ≤ fuel) :
    natDigitsAux fuel n = Nat.digits 10 n := by
  induction fuel generalizing n with
  | zero =>
    have : n = 0 := Nat.le_zero.mp h
    subst this
    simp [natDigitsAux]
  | succ f ih =>
    by_cases hn : n = 0
    · simp [natDigitsAux, hn]
    · rw [natDigitsAux, if_neg hn]
      have hdiv : n / 10 < n := Nat.div_lt_self (Nat.pos_of_ne_zero hn)
        (by norm_num)
      rw [ih (n / 10) (by omega)]
      rw [Nat.digits_def' (by norm_num : 1 < 10) (Nat.pos_of_ne_zero hn)]

theorem natDigits_eq (n : Nat) : natDigits n = Nat.digits 10 n :=
  natDigitsAux_eq n n le_rfl

theorem digitVal_digitChr (d : Nat) (h : d < 10) :
    digitVal (digitChr d) = some d := by
  interval_cases d <;> decide

theorem parseDigitsAux_map (L : List Nat) (hL : ∀ d ∈ L, d < 10)
    (acc : Nat) :
    parseDigitsAux (L.map digitChr) acc =
      some (L.foldl (fun a d => 10 * a + d) acc) := by
  induction L generalizing acc with
  | nil => rfl
  | cons d L ih =>
    have hd : d < 10 := hL d (by simp)
    simp only [List.map_cons, parseDigitsAux, digitVal_digitChr d hd]
    rw [ih (fun x hx => hL x (by simp [hx]))]
    rfl

theorem foldl_reverse_ofDigits (L : List Nat) :
    L.reverse.foldl (fun a d => 10 * a + d) 0 = Nat.ofDigits 10 L := by
  induction L with
  | nil => rfl
  | cons d L ih =>
    rw [List.reverse_cons, List.foldl_append]
    simp only [List.foldl_cons, List.foldl_nil, ih, Nat.ofDigits_cons,
      Nat.cast_id]
    ring

theorem parseDigits_natToDec (n : Nat) :
    parseDigits (natToDec n).toList = some n := by
  by_cases hn : n = 0
  · subst hn
    decide
  · have hLne : natDigits n ≠ [] := by
      rw [natDigits_eq]
      exact Nat.digits_ne_nil_iff_ne_zero.mpr hn
    have hlt : ∀ d ∈ (natDigits n).reverse, d < 10 := by
      intro d hd
      rw [List.mem_reverse, natDigits_eq] at hd
      exact Nat.digits_lt_base (by norm_num) hd
    have hform := parseDigitsAux_map ((natDigits n).reverse) hlt 0
    have hmap : (((natDigits n).map digitChr).reverse) =
        ((natDigits n).reverse).map digitChr := by
      rw [List.map_reverse]
    have hne2 : ((natDigits n).reverse).map digitChr ≠ [] := by
      simp [hLne]
    obtain ⟨c, cs2, hcs⟩ := List.exists_cons_of_ne_nil hne2
    unfold natToDec
    rw [if_neg hn, str_toList_mk, hmap, hcs]
    show parseDigitsAux (c :: cs2) 0 = some n
    rw [← hcs, hform, foldl_reverse_ofDigits, natDigits_eq,
      Nat.ofDigits_digits]

theorem goParseUint64_natToDec (n : Nat) (h : n < 2 ^ 64) :
    goParseUint64 (natToDec n) = some n := by
  unfold goParseUint64
  rw [parseDigits_natToDec]
  simp
  omega

theorem natToDec_chars (n : Nat) :
    ∀ c ∈ (natToDec n).toList, ∃ d, d < 10 ∧ c = digitChr d := by
  intro c hc
  unfold natToDec at hc
  by_cases hn : n = 0
  · rw [if_pos hn] at hc
    refine ⟨0, by norm_num, ?_⟩
    simpa using hc
  · rw [if_neg hn, str_toList_mk, List.mem_reverse, List.mem_map] at hc
    obtain ⟨d, hd, hdc⟩ := hc
    refine ⟨d, ?_, hdc.symm⟩
    rw [natDigits_eq] at hd
    exact Nat.digits_lt_base (by norm_num) hd

theorem digitChr_ne_colon (d : Nat) (h : d < 10) :
    digitChr d ≠ ':' ∧ digitChr d ≠ '-' ∧ digitChr d ≠ '+' := by
  interval_cases d <;> exact ⟨by decide, by decide, by decide⟩

theorem natToDec_no_colon (n : Nat) : ∀ c ∈ (natToDec n).toList, c ≠ ':' := by
  intro c hc
  obtain ⟨d, hd, hdc⟩ := natToDec_chars n c hc
  rw [hdc]
  exact (digitChr_ne_colon d hd).1

theorem intToDec_no_colon (i : Int) : ∀ c ∈ (intToDec i).toList, c ≠ ':' := by
  intro c hc
  unfold intToDec at hc
  split_ifs at hc
  · rw [str_toList_append] at hc
    rcases List.mem_append.mp hc with hm | hm
    · have : c = '-' := by simpa using hm
      rw [this]
      decide
    · exact natToDec_no_colon _ c hm
  · exact natToDec_no_colon _ c hc

theorem natToDec_toList_ne_nil (n : Nat) : (natToDec n).toList ≠ [] := by
  unfold natToDec
  by_cases hn : n = 0
  · rw [if_pos hn]
    decide
  · rw [if_neg hn, str_toList_mk]
    have hLne : natDigits n ≠ [] := by
      rw [natDigits_eq]
      exact Nat.digits_ne_nil_iff_ne_zero.mpr hn
    simp [hLne]

theorem goParseInt64Core_neg (m : Nat) (h : m ≤ 2 ^ 63) :
    goParseInt64Core (natToDec m).toList true = some (-(m : Int)) := by
  unfold goParseInt64Core
  rw [parseDigits_natToDec]
  simp
  omega

theorem goParseInt64Core_pos (m : Nat) (h : m < 2 ^ 63) :
    goParseInt64Core (natToDec m).toList false = some (m : Int) := by
  unfold goParseInt64Core
  rw [parseDigits_natToDec]
  simp
  omega

theorem goParseInt64_intToDec (i : Int) (h1 : -(2 : Int) ^ 63 ≤ i)
    (h2 : i < 2 ^ 63) : goParseInt64 (intToDec i) = some i := by
  by_cases hneg : i < 0
  · have hi : intToDec i = "-" ++ natToDec i.natAbs := by
      unfold intToDec
      rw [if_pos hneg]
    unfold goParseInt64
    rw [hi, str_toList_append,
      show (("-" : String)).toList = ['-'] from rfl, List.singleton_append]
    simp only [goParseInt64List]
    rw [if_pos trivial, goParseInt64Core_neg i.natAbs (by omega)]
    congr 1
    omega
  · have hi : intToDec i = natToDec i.toNat := by
      unfold intToDec
      rw [if_neg hneg]
    obtain ⟨c, cs2, hcs⟩ :=
      List.exists_cons_of_ne_nil (natToDec_toList_ne_nil i.toNat)
    obtain ⟨d, hd, hdc⟩ := natToDec_chars i.toNat c (by rw [hcs]; simp)
    have hne := digitChr_ne_colon d hd
    unfold goParseInt64
    rw [hi, hcs]
    simp only [goParseInt64List]
    rw [if_neg (by rw [hdc]; exact hne.2.1),
      if_neg (by rw [hdc]; exact hne.2.2)]
    rw [← hcs, goParseInt64Core_pos i.toNat (by omega)]
    congr 1
    omega

theorem hexVal_hexChr (d : Nat) (h : d < 16) : hexVal (hexChr d) = some d := by
  interval_cases d <;> decide

theorem goHexDecodeAux_encode (bs : List Nat) (h : ∀ b ∈ bs, b < 256) :
    goHexDecodeAux
      (bs.foldr (fun b acc => hexChr (b / 16) :: hexChr (b % 16) :: acc) []) =
      some bs := by
  induction bs with
  | nil => rfl
  | cons b bs ih =>
    have hb : b < 256 := h b (by simp)
    have hhi : b / 16 < 16 := by omega
    have hlo : b % 16 < 16 := by omega
    simp only [List.foldr_cons, goHexDecodeAux, hexVal_hexChr _ hhi,
      hexVal_hexChr _ hlo, ih (fun x hx => h x (by simp [hx]))]
    congr 2
    omega

theorem goHexDecode_encode (bs : List Nat) (h : ∀ b ∈ bs, b < 256) :
    goHexDecode (goHexEncode bs) = some bs := by
  unfold goHexDecode goHexEncode
  rw [str_toList_mk]
  exact goHexDecodeAux_encode bs h

/-! ## Split lemmas for the serialized proof shape -/

theorem splitAux_no_sep (sep : Char) (cs rest : List Char) (n : Nat)
    (acc : List Char) (h : ∀ c ∈ cs, c ≠ sep) :
    splitAux sep (cs ++ rest) n acc = splitAux sep rest n (acc ++ cs) := by
  induction cs generalizing acc with
  | nil => simp
  | cons c cs ih =>
    have hc : c ≠ sep := h c (by simp)
    simp only [List.cons_append, splitAux]
    rw [if_neg (fun hh => hc hh.1)]
    simp only [List.append_eq]
    rw [ih _ (fun x hx => h x (by simp [hx]))]
    simp

theorem splitAux_sep_step (sep : Char) (cs : List Char) (n : Nat)
    (acc : List Char) (h : 1 < n) :
    splitAux sep (sep :: cs) n acc = acc :: splitAux sep cs (n - 1) [] := by
  simp [splitAux, h]

theorem splitAux_le_one (sep : Char) (cs : List Char) (n : Nat)
    (acc : List Char) (h : n ≤ 1) :
    splitAux sep cs n acc = [acc ++ cs] := by
  induction cs generalizing acc with
  | nil => simp [splitAux]
  | cons c cs ih =>
    simp only [splitAux]
    rw [if_neg (fun hh => absurd hh.2 (by omega))]
    rw [ih _]
    simp

theorem goSplitN_three (s1 s2 s3 : String)
    (h1 : ∀ c ∈ s1.toList, c ≠ ':') (h2 : ∀ c ∈ s2.toList, c ≠ ':') :
    goSplitN (s1 ++ ":" ++ s2 ++ ":" ++ s3) ':' 3 = [s1, s2, s3] := by
  unfold goSplitN
  have hsh : (s1 ++ ":" ++ s2 ++ ":" ++ s3).toList =
      s1.toList ++ (':' :: (s2.toList ++ (':' :: s3.toList))) := by
    simp only [str_toList_append]
    have : (":" : String).toList = [':'] := rfl
    rw [this]
    simp
  rw [hsh]
  rw [splitAux_no_sep ':' s1.toList _ 3 [] h1]
  rw [splitAux_sep_step ':' _ 3 _ (by norm_num)]
  rw [splitAux_no_sep ':' s2.toList _ 2 [] h2]
  rw [splitAux_sep_step ':' _ 2 _ (by norm_num)]
  rw [splitAux_le_one ':' s3.toList 1 [] le_rfl]
  simp only [List.nil_append, List.map_cons, List.map_nil, str_mk_toList]

/-- C6 counterexample: ArkAuth.String does not serialize the Spender
field (the serialization is contract id, nonce, signature only), so a
well formed proof with a non empty spender key does not survive the round
trip: parsing its serialization yields the proof with the spender
cleared. -/
theorem C6_spender_not_roundtripped :
    parseArkAuth (ArkAuth.String ⟨1, "k", 2, []⟩) ≠
      ParseResult.ok ⟨1, "k", 2, []⟩ := by
  decide

/-- C6 amended: for every well formed delegated spender proof whose fields
are in machine range, parsing the serialization restores the contract id,
nonce and signature exactly and leaves the spender key empty; the full
round trip parseArkAuth (p.String) = p therefore holds exactly for proofs
whose Spender is empty. -/
theorem C6_roundtrip_modulo_spender (aa : ArkAuth)
    (hc : aa.ContractId < 2 ^ 64)
    (hn1 : -(2 : Int) ^ 63 ≤ aa.Nonce) (hn2 : aa.Nonce < 2 ^ 63)
    (hs : ∀ b ∈ aa.Signature, b < 256) :
    parseArkAuth (ArkAuth.String aa) =
      ParseResult.ok ⟨aa.ContractId, "", aa.Nonce, aa.Signature⟩ := by
  have hsplit : goSplitN (ArkAuth.String aa) ':' 3 =
      [natToDec aa.ContractId, intToDec aa.Nonce,
        goHexEncode aa.Signature] := by
    unfold ArkAuth.String GenerateArkAuthString GenerateMessageToSign
    exact goSplitN_three _ _ _ (natToDec_no_colon _) (intToDec_no_colon _)
  unfold parseArkAuth
  rw [hsplit]
  simp only [List.getD_cons_zero, List.getD_cons_succ, List.length_cons,
    List.length_nil, goParseUint64_natToDec _ hc,
    goParseInt64_intToDec _ hn1 hn2, goHexDecode_encode _ hs]
  norm_num

/-- Witness for C6 at a concrete proof with empty spender. -/
theorem C6_roundtrip_modulo_spender_witness :
    ((12 : Nat) < 2 ^ 64 ∧ -(2 : Int) ^ 63 ≤ -3 ∧ (-3 : Int) < 2 ^ 63 ∧
      ∀ b ∈ ([0, 255, 16] : List Nat), b < 256) ∧
    parseArkAuth (ArkAuth.String ⟨12, "", -3, [0, 255, 16]⟩) =
      ParseResult.ok ⟨12, "", -3, [0, 255, 16]⟩ :=
  ⟨⟨by decide, by decide, by decide, by decide⟩,
   C6_roundtrip_modulo_spender ⟨12, "", -3, [0, 255, 16]⟩ (by decide)
     (by decide) (by decide) (by decide)⟩

/-! ## The free fallback of the auth middleware -/

theorem getHeader_setHeader_eq (hs : Headers) (n v : String) :
    getHeader (setHeader hs n v) n = some v :=
  lookupA_setA_eq hs n v

/-- The free tail always stamps the tier header free, and serves exactly
when the free tier limiter grants the call. -/
theorem freeTail_tier (p : Proxy) (st : Stores) (now : ℚ) (addr : String)
    (hs : Headers) :
    getHeader (freeTail p st now addr hs).headers "tier" = some "free" ∧
    ((freeTail p st now addr hs).disp = Disposition.served ↔
      (isRateLimited st.visitors now 0 addr p.freeTierRateLimit).1 =
        false) := by
  unfold freeTail
  cases hrl : (isRateLimited st.visitors now 0 addr p.freeTierRateLimit).1 <;>
    simp [hrl, getHeader_setHeader_eq]

/-- When the paid eligibility test fails, authTail is exactly the free
tail. -/
theorem authTail_not_eligible (p : Proxy) (st : Stores) (now : ℚ)
    (r : Request) (aa : ArkAuth) (memOk : Bool) (c : Contract)
    (hs : Headers)
    (h : ¬ (memOk = true ∧ (c.Authorization = .OPEN ∨
      p.providerValid aa = true))) :
    authTail p st now r aa memOk c hs =
      freeTail p st now (getRemoteAddr r) hs := by
  unfold authTail
  rw [if_neg h]

/-- C5: a request carrying a proof whose signature does not validate
against the provider key, for a RESTRICTED contract, is never served at
paid tier: whenever the middleware forwards it, the tier header is free;
and when the contract policy gates are inactive and the free tier limiter
grants the call, the request is forwarded with tier free. -/
theorem C5_restricted_invalid_sig_free (p : Proxy) (st : Stores) (now : ℚ)
    (r : Request) (raw : String) (aa : ArkAuth) (c : Contract)
    (hq : r.arkauthParam = some raw)
    (hp : parseArkAuth raw = ParseResult.ok aa)
    (hmem : memGet st (natToDec aa.ContractId) = some c)
    (hauth : c.Authorization = ContractAuthorization.RESTRICTED)
    (hsig : p.providerValid aa = false) :
    ((auth p st now r).disp = Disposition.served →
      getHeader (auth p st now r).headers "tier" = some "free") ∧
    ((((p.configGet c.Id).getD zeroConfig).WhitelistIPAddresses = [] ∧
      ((p.configGet c.Id).getD zeroConfig).PerUserRateLimit ≤ 0 ∧
      (isRateLimited st.visitors now 0 (getRemoteAddr r)
        p.freeTierRateLimit).1 = false) →
      ((auth p st now r).disp = Disposition.served ∧
       getHeader (auth p st now r).headers "tier" = some "free")) := by
  have hne : ¬ ((true : Bool) = true ∧
      (c.Authorization = .OPEN ∨ p.providerValid aa = true)) := by
    rintro ⟨-, hor⟩
    rcases hor with ho | hv
    · rw [hauth] at ho
      cases ho
    · rw [hsig] at hv
      cases hv
  have hred : auth p st now r = authCore p st now r aa := by
    unfold auth
    simp only [hq, hp]
  rw [hred]
  unfold authCore
  simp only [hmem, Option.getD_some, Option.isSome_some]
  by_cases h0 : 0 < c.Id
  · simp only [h0, if_true]
    by_cases hwlc :
        ((p.configGet c.Id).getD zeroConfig).WhitelistIPAddresses.length >
          0 ∧
        ¬ (((p.configGet c.Id).getD
          zeroConfig).WhitelistIPAddresses.any
          (fun ip => eqFold (getRemoteAddr r) ip) = true)
    · simp only [hwlc, if_true]
      constructor
      · intro hserved
        cases hserved
      · rintro ⟨hwl, -, -⟩
        rw [hwl] at hwlc
        simp at hwlc
    · simp only [hwlc, if_false]
      by_cases hpuc :
          0 < ((p.configGet c.Id).getD zeroConfig).PerUserRateLimit
      · simp only [hpuc, if_true]
        by_cases hlim : (isRateLimited st.visitors now c.Id
            (getRemoteAddr r)
            ((p.configGet c.Id).getD zeroConfig).PerUserRateLimit).1 = true
        · simp only [hlim, if_true]
          constructor
          · intro hserved
            cases hserved
          · rintro ⟨-, hpu, -⟩
            omega
        · simp only [hlim, if_false]
          rw [authTail_not_eligible _ _ _ _ _ _ _ _ hne]
          have hft := freeTail_tier p
            { st with visitors := (isRateLimited st.visitors now c.Id
              (getRemoteAddr r)
              ((p.configGet c.Id).getD zeroConfig).PerUserRateLimit).2 }
            now (getRemoteAddr r)
            (corsHeaders [] ((p.configGet c.Id).getD zeroConfig).CORs)
          constructor
          · intro _
            exact hft.1
          · rintro ⟨-, hpu, -⟩
            omega
      · simp only [hpuc, if_false]
        rw [authTail_not_eligible _ _ _ _ _ _ _ _ hne]
        have hft := freeTail_tier p st now (getRemoteAddr r)
          (corsHeaders [] ((p.configGet c.Id).getD zeroConfig).CORs)
        constructor
        · intro _
          exact hft.1
        · rintro ⟨-, -, hfree⟩
          exact ⟨hft.2.mpr hfree, hft.1⟩
  · simp only [h0, if_false]
    rw [authTail_not_eligible _ _ _ _ _ _ _ _ hne]
    have hft := freeTail_tier p st now (getRemoteAddr r) []
    constructor
    · intro _
      exact hft.1
    · rintro ⟨-, -, hfree⟩
      exact ⟨hft.2.mpr hfree, hft.1⟩

/-- Witness for C5 at a RESTRICTED contract and a failing provider
validation. -/
theorem C5_restricted_invalid_sig_free_witness :
    (exRequest.arkauthParam = some "7:1:" ∧
     parseArkAuth "7:1:" = ParseResult.ok ⟨7, "", 1, []⟩ ∧
     memGet exStores (natToDec (7 : Nat)) = some exContract ∧
     exContract.Authorization = ContractAuthorization.RESTRICTED ∧
     exInvalidProxy.providerValid ⟨7, "", 1, []⟩ = false) ∧
    (((auth exInvalidProxy exStores 60 exRequest).disp =
        Disposition.served →
      getHeader (auth exInvalidProxy exStores 60 exRequest).headers
        "tier" = some "free") ∧
     ((((exInvalidProxy.configGet exContract.Id).getD
          zeroConfig).WhitelistIPAddresses = [] ∧
       ((exInvalidProxy.configGet exContract.Id).getD
          zeroConfig).PerUserRateLimit ≤ 0 ∧
       (isRateLimited exStores.visitors 60 0 (getRemoteAddr exRequest)
         exInvalidProxy.freeTierRateLimit).1 = false) →
      ((auth exInvalidProxy exStores 60 exRequest).disp =
        Disposition.served ∧
       getHeader (auth exInvalidProxy exStores 60 exRequest).headers
        "tier" = some "free"))) :=
  ⟨⟨by decide, by decide, by decide, by decide, by decide⟩,
   C5_restricted_invalid_sig_free exInvalidProxy exStores 60 exRequest
     "7:1:" ⟨7, "", 1, []⟩ exContract (by decide) (by decide) (by decide)
     (by decide) (by decide)⟩

end Sentinel
